import Mathlib

/-!
Verification of the Drive Ya Nuts solver (src/solve.py) against its
natural-language specification.  The Python program is shallowly embedded:
pure functions become Lean functions, Python exceptions become an explicit
Except layer, Python object identity becomes an explicit identity field,
and the bounded recursion of the search becomes a fuel-indexed structural
recursion together with a proof that the chosen fuel suffices.
-/

set_option linter.unusedVariables false

/-- Errors the Python runtime can raise while the solver runs.  The names
follow the specification vocabulary where it has one: mismatchError is the
ValueError raised explicitly inside get_open_edges, valueNotFoundError is
the ValueError raised by list.index, indexError is an out-of-range tuple
lookup (also the failure of Nut construction on an empty sequence, which
the specification calls InvalidPieceError), and zeroDivisionError models a
modulo by zero, reachable only on an empty sequence. -/
inductive PyError where
  | indexError
  | mismatchError
  | valueNotFoundError
  | zeroDivisionError
  deriving DecidableEq, Repr

/-- Shallow embedding of the Python class Nut of src/solve.py.  numbers is
the tuple of rim values and name the display label, a single character in
the canonical dataset.  The oid field models Python object identity: the
class defines no equality, so comparison and hashing fall back to object
identity, and every constructed object is fresh; giving each constructed
Nut a distinct oid reproduces that behaviour under structural equality. -/
structure Nut where
  numbers : List Int
  name : Char
  oid : Nat
  deriving DecidableEq, Repr

/-- Consecutive pairs (numbers[i], numbers[i+1]) for i in [0, len-1), as
built by the loop in Nut.__init__. -/
def edgePairs : List Int → List (Int × Int)
  | [] => []
  | [_] => []
  | x :: y :: rest => (x, y) :: edgePairs (y :: rest)

/-- The edges_list attribute computed by Nut.__init__: the consecutive
pairs plus the wraparound pair (numbers[-1], numbers[0]).  The constructor
raises before producing an object on an empty sequence (see nutInit), so
the empty case here is dead code. -/
def edgesList (numbers : List Int) : List (Int × Int) :=
  match numbers with
  | [] => []
  | x :: rest => edgePairs (x :: rest) ++ [((x :: rest).getLastD 0, x)]

/-- Membership test against the frozenset edges_set of a Nut. -/
def hasEdge (nut : Nut) (e : Int × Int) : Bool :=
  (edgesList nut.numbers).contains e

/-- Shallow embedding of Nut.__init__: building the edge list of an empty
sequence evaluates numbers[-1], which raises IndexError, so construction
fails before any search begins; on a non-empty sequence it succeeds.  The
oid argument stands for the fresh object identity Python assigns to the
new instance. -/
def nutInit (numbers : List Int) (name : Char) (oid : Nat) : Except PyError Nut :=
  match numbers with
  | [] => .error .indexError
  | _ :: _ => .ok (Nut.mk numbers name oid)

/-- Python tuple indexing t[i]: valid for -len <= i < len, with negative
indices counting from the end; anything else raises IndexError. -/
def pyIndex (l : List Int) (i : Int) : Except PyError Int :=
  let n : Int := (l.length : Int)
  if 0 ≤ i then
    match l[i.toNat]? with
    | some v => .ok v
    | none => .error .indexError
  else if -n ≤ i then
    match l[(n + i).toNat]? with
    | some v => .ok v
    | none => .error .indexError
  else
    .error .indexError

/-- Shallow embedding of Nut.__getitem__: an index at or above the length
is first reduced modulo the length (Python modulo, non-negative for a
positive modulus, matching Int.emod), then ordinary tuple indexing
applies; hence indices in [-len, len) resolve and an index below -len
raises IndexError. -/
def getItemE (nut : Nut) (item : Int) : Except PyError Int :=
  let n : Int := (nut.numbers.length : Int)
  if n ≤ item then
    if n = 0 then .error .zeroDivisionError
    else pyIndex nut.numbers (item % n)
  else
    pyIndex nut.numbers item

/-- Modular rim lookup in the words of the specification: the value at
position i mod len, a total function on non-empty pieces. -/
def valueAt (nut : Nut) (i : Int) : Int :=
  nut.numbers.getD (i % (nut.numbers.length : Int)).toNat 0

/-- Shallow embedding of list.index as used in trace_path: the position of
the first occurrence of v in the rim sequence, raising ValueError (the
valueNotFoundError of the specification) when v is absent. -/
def indexOfE (nut : Nut) (v : Int) : Except PyError Int :=
  match nut.numbers.findIdx? (fun x => x == v) with
  | some i => .ok (i : Int)
  | none => .error .valueNotFoundError

/-- Shallow embedding of get_open_edges of src/solve.py, including its
evaluation order: the two pivot lookups, the mismatch check, then the four
neighbour lookups that form the left and right open edges. -/
def get_open_edges (nut1 : Nut) (index1 : Int) (nut2 : Nut) (index2 : Int) :
    Except PyError ((Int × Int) × (Int × Int)) :=
  match getItemE nut1 index1 with
  | .error e => .error e
  | .ok val1 =>
    match getItemE nut2 index2 with
    | .error e => .error e
    | .ok val2 =>
      if val1 ≠ val2 then .error .mismatchError
      else
        match getItemE nut2 (index2 + 1) with
        | .error e => .error e
        | .ok la =>
          match getItemE nut1 (index1 - 1) with
          | .error e => .error e
          | .ok lb =>
            match getItemE nut1 (index1 + 1) with
            | .error e => .error e
            | .ok ra =>
              match getItemE nut2 (index2 - 1) with
              | .error e => .error e
              | .ok rb => .ok ((la, lb), (ra, rb))

/-- Nut.__lt__: comparison by name only. -/
def nutLt (a b : Nut) : Bool :=
  decide (a.name < b.name)

/-- Nut.__gt__: comparison by name only. -/
def nutGt (a b : Nut) : Bool :=
  decide (b.name < a.name)

/-- Stable insertion by name, the building block of the stable sort that
models the Python built-in sorted (which compares Nuts via __lt__). -/
def insertByName (x : Nut) : List Nut → List Nut
  | [] => [x]
  | y :: ys => if nutLt y x then y :: insertByName x ys else x :: y :: ys

/-- Stable sort by name, modelling the Python built-in sorted on Nuts. -/
def sortNuts : List Nut → List Nut
  | [] => []
  | x :: xs => insertByName x (sortNuts xs)

/-- Shallow embedding of sorted(set(pool) - set of removed objects): the
set constructor collapses duplicate objects, the difference removes the
listed objects by identity, and sorted orders the result by name.  The
iteration order of the intermediate set is immaterial once the result is
sorted, up to ties between distinct objects with equal names. -/
def sortedSetMinus (pool remove : List Nut) : List Nut :=
  sortNuts ((pool.dedup).filter (fun x => !(remove.contains x)))

/-- Loop of try_center of src/solve.py over the remaining candidates rest,
with allNuts the full pool used both for the skip test and for the
available-nut computation. -/
def tryCenterAux (center : Nut) (allNuts : List Nut) :
    List Nut → Except PyError (List (Nut × Nut × List Nut × List Nut))
  | [] => .ok []
  | n :: rest =>
    if n = center then tryCenterAux center allNuts rest
    else
      match get_open_edges center 0 n 0 with
      | .error e => .error e
      | .ok (leftEdge, rightEdge) =>
        let availableNuts := sortedSetMinus allNuts [center, n]
        let leftOptions := availableNuts.filter (fun m => hasEdge m leftEdge)
        let rightOptions := availableNuts.filter (fun m => hasEdge m rightEdge)
        match tryCenterAux center allNuts rest with
        | .error e => .error e
        | .ok tail =>
          if leftOptions.isEmpty || rightOptions.isEmpty then .ok tail
          else .ok ((center, n, leftOptions, rightOptions) :: tail)

/-- Shallow embedding of try_center of src/solve.py: the feasibility
filter for second pieces next to a fixed center. -/
def try_center (center : Nut) (allNuts : List Nut) :
    Except PyError (List (Nut × Nut × List Nut × List Nut)) :=
  tryCenterAux center allNuts allNuts

/-- Fuel-indexed embedding of trace_path of src/solve.py.  The Python
function recurses on a strictly smaller pool, so any fuel of at least the
pool length yields the value of the Python recursion; trace_path below
supplies such a fuel, and tracePathFuel_congr proves the choice of fuel
immaterial from that bound on.  The fuel-zero fallback is unreachable
under the bound. -/
def tracePathFuel (fuel : Nat) (center second : Nut) (centerIndex : Int)
    (availableNuts stack : List Nut) : Except PyError (Bool × List Nut) :=
  match availableNuts with
  | [] => .ok (true, stack)
  | _ :: _ =>
    match fuel with
    | 0 => .error .indexError
    | fuel + 1 =>
      match getItemE center centerIndex with
      | .error e => .error e
      | .ok centerValue =>
        match indexOfE second centerValue with
        | .error e => .error e
        | .ok secondIndex =>
          match get_open_edges center centerIndex second secondIndex with
          | .error e => .error e
          | .ok (leftEdge, rightEdge) =>
            match availableNuts.find? (fun m => hasEdge m rightEdge) with
            | some rightNut =>
                tracePathFuel fuel center rightNut (centerIndex + 1)
                  (sortedSetMinus availableNuts [rightNut]) (stack ++ [rightNut])
            | none => .ok (false, stack)

/-- Shallow embedding of trace_path of src/solve.py: the full backtracking
search, with the fuel instantiated to the pool length, which always
suffices. -/
def trace_path (center second : Nut) (centerIndex : Int)
    (availableNuts stack : List Nut) : Except PyError (Bool × List Nut) :=
  tracePathFuel availableNuts.length center second centerIndex availableNuts stack

/-- Canonical dataset piece a of src/solve.py. -/
def nutA : Nut := Nut.mk [1, 2, 3, 4, 5, 6] 'a' 0

/-- Canonical dataset piece b of src/solve.py. -/
def nutB : Nut := Nut.mk [1, 2, 5, 6, 3, 4] 'b' 1

/-- Canonical dataset piece c of src/solve.py. -/
def nutC : Nut := Nut.mk [1, 3, 5, 2, 4, 6] 'c' 2

/-- Canonical dataset piece d of src/solve.py. -/
def nutD : Nut := Nut.mk [1, 3, 5, 4, 2, 6] 'd' 3

/-- Canonical dataset piece e of src/solve.py. -/
def nutE : Nut := Nut.mk [1, 4, 2, 3, 5, 6] 'e' 4

/-- Canonical dataset piece f of src/solve.py. -/
def nutF : Nut := Nut.mk [1, 5, 3, 2, 6, 4] 'f' 5

/-- Canonical dataset piece g of src/solve.py. -/
def nutG : Nut := Nut.mk [1, 6, 5, 4, 3, 2] 'g' 6

/-- The list all_nuts_list of src/solve.py. -/
def allNutsList : List Nut := [nutA, nutB, nutC, nutD, nutE, nutF, nutG]

/-- Pieces used by counterexamples: a two-piece dataset whose members share
no rim value at all. -/
def nutX : Nut := Nut.mk [1, 2, 3] 'x' 100

/-- Second piece of the two-piece counterexample dataset. -/
def nutY : Nut := Nut.mk [4, 5, 6] 'y' 101

/-- Two pieces built from identical data but with distinct object
identities, exercising the identity-based equality of the Nut class. -/
def nutP1 : Nut := Nut.mk [1, 2] 'p' 201

/-- Twin of nutP1 with a different identity. -/
def nutP2 : Nut := Nut.mk [1, 2] 'p' 202

/-- One link of the right-edge chain the search maintains: with the center
fixed at centerIndex, the previous ring piece aligned at the first index
of the pivot value, the next ring piece must carry the right open edge in
its edge set.  This is the edge-closure condition trace_path checks at
each step, written as an executable predicate. -/
def chainStepB (center : Nut) (centerIndex : Int) (prev nxt : Nut) : Bool :=
  match getItemE center centerIndex with
  | .error _ => false
  | .ok v =>
    match indexOfE prev v with
    | .error _ => false
    | .ok si =>
      match get_open_edges center centerIndex prev si with
      | .error _ => false
      | .ok (_, re) => hasEdge nxt re

/-- The whole right-edge chain along the pieces placed by the search after
the initial pair, starting from the given center index and previous ring
piece. -/
def chainB (center : Nut) (centerIndex : Int) (prev : Nut) : List Nut → Bool
  | [] => true
  | n :: rest => chainStepB center centerIndex prev n && chainB center (centerIndex + 1) n rest

/-- Feasible starting pairs in the words of the specification (claim C5):
for each piece n of the pool other than the center, align center and n at
index 0, collect from the pool without center and n the pieces whose edge
set contains the left open edge and those whose edge set contains the
right open edge, and keep n exactly when both collections are non-empty.
The set of pieces is realized as the name-sorted list of the remaining
distinct objects, as in the data model of the specification. -/
def specFeasibleFn (center : Nut) (pool : List Nut) (n : Nut) :
    Option (Nut × Nut × List Nut × List Nut) :=
  if n = center then none
  else
    match get_open_edges center 0 n 0 with
    | .error _ => none
    | .ok (le, re) =>
      let others := sortedSetMinus pool [center, n]
      let lo := others.filter (fun m => hasEdge m le)
      let ro := others.filter (fun m => hasEdge m re)
      if lo = [] ∨ ro = [] then none else some (center, n, lo, ro)

/-- The list of feasible tuples in the words of the specification (see
specFeasibleFn). -/
def specFeasible (center : Nut) (pool : List Nut) : List (Nut × Nut × List Nut × List Nut) :=
  pool.filterMap (specFeasibleFn center pool)

/-! ### Helper lemmas about indexing -/

/-- A list lookup in range returns the default-free value. -/
theorem listGetD (l : List Int) (m : Nat) (h : m < l.length) :
    l[m]? = some (l.getD m 0) := by
  induction l generalizing m with
  | nil => simp at h
  | cons x xs ih =>
    cases m with
    | zero => simp
    | succ k =>
      simp only [List.getElem?_cons_succ, List.getD_cons_succ]
      exact ih k (by simpa using h)

/-- Python tuple indexing succeeds on a non-negative in-range index. -/
theorem pyIndex_ok_nonneg (l : List Int) (i : Int) (h0 : 0 ≤ i)
    (h1 : i < (l.length : Int)) :
    pyIndex l i = .ok (l.getD i.toNat 0) := by
  have hm : i.toNat < l.length := by omega
  unfold pyIndex
  rw [if_pos h0, listGetD l i.toNat hm]

/-- Python tuple indexing succeeds on a negative index no smaller than the
negated length, counting from the end. -/
theorem pyIndex_ok_neg (l : List Int) (i : Int) (h0 : i < 0)
    (h1 : -(l.length : Int) ≤ i) :
    pyIndex l i = .ok (l.getD ((l.length : Int) + i).toNat 0) := by
  have hnot : ¬ 0 ≤ i := by omega
  have hm : ((l.length : Int) + i).toNat < l.length := by omega
  unfold pyIndex
  rw [if_neg hnot, if_pos h1, listGetD _ _ hm]

/-- Nut.__getitem__ realizes the modular lookup of the specification on
every index of at least the negated length. -/
theorem getItem_ok (nut : Nut) (i : Int) (hne : nut.numbers ≠ [])
    (hlb : -(nut.numbers.length : Int) ≤ i) :
    getItemE nut i = .ok (valueAt nut i) := by
  have hpos : 0 < (nut.numbers.length : Int) := by
    have := List.length_pos.2 hne
    omega
  by_cases hge : (nut.numbers.length : Int) ≤ i
  · have h0 : 0 ≤ i % (nut.numbers.length : Int) :=
      Int.emod_nonneg i (by omega)
    have h1 : i % (nut.numbers.length : Int) < (nut.numbers.length : Int) :=
      Int.emod_lt_of_pos i hpos
    unfold getItemE
    rw [if_pos hge, if_neg (by omega : ¬ (nut.numbers.length : Int) = 0),
      pyIndex_ok_nonneg nut.numbers _ h0 h1]
    rfl
  · by_cases hneg : i < 0
    · have hmod : i % (nut.numbers.length : Int) = (nut.numbers.length : Int) + i := by
        have h2 : (i + (nut.numbers.length : Int)) % (nut.numbers.length : Int)
            = i % (nut.numbers.length : Int) := by
          have := Int.add_mul_emod_self_left i (nut.numbers.length : Int) 1
          rwa [mul_one] at this
        have h3 : (i + (nut.numbers.length : Int)) % (nut.numbers.length : Int)
            = i + (nut.numbers.length : Int) :=
          Int.emod_eq_of_lt (by omega) (by omega)
        omega
      unfold getItemE
      rw [if_neg hge, pyIndex_ok_neg nut.numbers i hneg hlb]
      unfold valueAt
      rw [hmod]
    · have h0 : 0 ≤ i := by omega
      have hmod : i % (nut.numbers.length : Int) = i :=
        Int.emod_eq_of_lt h0 (by omega)
      unfold getItemE
      rw [if_neg hge, pyIndex_ok_nonneg nut.numbers i h0 (by omega)]
      unfold valueAt
      rw [hmod]

/-! ### Helper lemmas about sorting and pool shrinking -/

/-- Insertion keeps the same elements. -/
theorem insertByName_perm (x : Nut) (l : List Nut) :
    (insertByName x l).Perm (x :: l) := by
  induction l with
  | nil => simp [insertByName]
  | cons y ys ih =>
    by_cases h : nutLt y x
    · simp only [insertByName, if_pos h]
      exact (ih.cons y).trans (List.Perm.swap x y ys)
    · simp [insertByName, if_neg h]

/-- The stable sort keeps the same elements. -/
theorem sortNuts_perm (l : List Nut) : (sortNuts l).Perm l := by
  induction l with
  | nil => simp [sortNuts]
  | cons x xs ih => exact (insertByName_perm x (sortNuts xs)).trans (ih.cons x)

/-- The stable sort keeps the length. -/
theorem length_sortNuts (l : List Nut) : (sortNuts l).length = l.length :=
  (sortNuts_perm l).length_eq

/-- Filtering away a present element strictly shrinks a list. -/
theorem filter_length_lt {p : Nut → Bool} {l : List Nut} (x : Nut)
    (hx : x ∈ l) (hpx : p x = false) :
    (l.filter p).length < l.length := by
  induction l with
  | nil => simp at hx
  | cons y ys ih =>
    rcases List.mem_cons.1 hx with h | h
    · subst h
      rw [List.filter_cons_of_neg (by simp [hpx])]
      exact Nat.lt_succ_of_le (List.length_filter_le p ys)
    · by_cases hy : p y
      · rw [List.filter_cons_of_pos hy]
        simpa using ih h
      · rw [List.filter_cons_of_neg (by simp [hy])]
        exact Nat.lt_succ_of_lt (ih h)

/-- Removing a member of the pool strictly shrinks it. -/
theorem sortedSetMinus_length_lt (l : List Nut) (x : Nut) (hx : x ∈ l) :
    (sortedSetMinus l [x]).length < l.length := by
  unfold sortedSetMinus
  rw [length_sortNuts]
  have hmem : x ∈ l.dedup := List.mem_dedup.2 hx
  have hfalse : (fun y => !([x].contains y)) x = false := by simp [List.contains]
  calc (List.filter (fun y => !([x].contains y)) l.dedup).length
      < l.dedup.length := filter_length_lt x hmem hfalse
    _ ≤ l.length := (List.dedup_sublist l).length_le

/-- The shrunk pool never has duplicates. -/
theorem sortedSetMinus_nodup (l rm : List Nut) : (sortedSetMinus l rm).Nodup :=
  (sortNuts_perm _).symm.nodup (List.Nodup.filter _ (List.nodup_dedup l))

/-- On a duplicate-free pool, removing one object is list erasure up to
reordering. -/
theorem sortedSetMinus_perm_erase (l : List Nut) (x : Nut) (h : l.Nodup) :
    (sortedSetMinus l [x]).Perm (l.erase x) := by
  unfold sortedSetMinus
  rw [h.dedup]
  have hfil : List.filter (fun y => !([x].contains y)) l
      = List.filter (fun y => y != x) l := by
    apply List.filter_congr
    intro y hy
    by_cases hxy : y = x <;> simp [hxy, List.contains]
  rw [hfil, ← List.Nodup.erase_eq_filter h x]
  exact sortNuts_perm _

/-- Membership survives pool shrinking when the element is not removed. -/
theorem mem_sortedSetMinus {y : Nut} {l rm : List Nut} (hy : y ∈ l)
    (hrm : rm.contains y = false) :
    y ∈ sortedSetMinus l rm := by
  unfold sortedSetMinus
  have hmem : y ∈ (l.dedup).filter (fun x => !(rm.contains x)) :=
    List.mem_filter.2 ⟨List.mem_dedup.2 hy, by simpa using hrm⟩
  exact ((sortNuts_perm _).mem_iff).2 hmem

/-! ### Helper lemmas about the fuel-indexed search -/

/-- One-step unfolding of the fuel-indexed search on a non-empty pool with
positive fuel. -/
theorem tracePathFuel_cons (fuel : Nat) (c s : Nut) (ci : Int) (a : Nut)
    (rest stack : List Nut) :
    tracePathFuel (fuel + 1) c s ci (a :: rest) stack =
      (match getItemE c ci with
      | Except.error e => Except.error e
      | Except.ok v =>
        match indexOfE s v with
        | Except.error e => Except.error e
        | Except.ok si =>
          match get_open_edges c ci s si with
          | Except.error e => Except.error e
          | Except.ok (le, re) =>
            match (a :: rest).find? (fun m => hasEdge m re) with
            | some rn =>
                tracePathFuel fuel c rn (ci + 1)
                  (sortedSetMinus (a :: rest) [rn]) (stack ++ [rn])
            | none => Except.ok (false, stack)) := rfl

/-- Error propagation from the center lookup. -/
theorem tpfErrCenter (fuel : Nat) (c s : Nut) (ci : Int) (a : Nut)
    (rest stack : List Nut) (e : PyError)
    (hv : getItemE c ci = .error e) :
    tracePathFuel (fuel + 1) c s ci (a :: rest) stack = .error e := by
  simp only [tracePathFuel_cons, hv]

/-- Error propagation from the pivot search on the second piece. -/
theorem tpfErrIndex (fuel : Nat) (c s : Nut) (ci : Int) (a : Nut)
    (rest stack : List Nut) (v : Int) (e : PyError)
    (hv : getItemE c ci = .ok v)
    (hsi : indexOfE s v = .error e) :
    tracePathFuel (fuel + 1) c s ci (a :: rest) stack = .error e := by
  simp only [tracePathFuel_cons, hv, hsi]

/-- Error propagation from the open-edge computation. -/
theorem tpfErrEdges (fuel : Nat) (c s : Nut) (ci : Int) (a : Nut)
    (rest stack : List Nut) (v si : Int) (e : PyError)
    (hv : getItemE c ci = .ok v)
    (hsi : indexOfE s v = .ok si)
    (he : get_open_edges c ci s si = .error e) :
    tracePathFuel (fuel + 1) c s ci (a :: rest) stack = .error e := by
  simp only [tracePathFuel_cons, hv, hsi, he]

/-- Step of the fuel-indexed search when the scan finds a matching piece. -/
theorem tpfFound (fuel : Nat) (c s : Nut) (ci : Int) (a : Nut)
    (rest stack : List Nut) (v si : Int) (le re : Int × Int) (rn : Nut)
    (hv : getItemE c ci = .ok v)
    (hsi : indexOfE s v = .ok si)
    (he : get_open_edges c ci s si = .ok (le, re))
    (hf : (a :: rest).find? (fun m => hasEdge m re) = some rn) :
    tracePathFuel (fuel + 1) c s ci (a :: rest) stack
      = tracePathFuel fuel c rn (ci + 1)
          (sortedSetMinus (a :: rest) [rn]) (stack ++ [rn]) := by
  simp only [tracePathFuel_cons, hv, hsi, he, hf]

/-- Step of the fuel-indexed search when no piece matches. -/
theorem tpfNone (fuel : Nat) (c s : Nut) (ci : Int) (a : Nut)
    (rest stack : List Nut) (v si : Int) (le re : Int × Int)
    (hv : getItemE c ci = .ok v)
    (hsi : indexOfE s v = .ok si)
    (he : get_open_edges c ci s si = .ok (le, re))
    (hf : (a :: rest).find? (fun m => hasEdge m re) = none) :
    tracePathFuel (fuel + 1) c s ci (a :: rest) stack = .ok (false, stack) := by
  simp only [tracePathFuel_cons, hv, hsi, he, hf]

/-- Any two sufficient fuels give the same search result. -/
theorem tracePathFuel_congr : ∀ (f1 : Nat) (f2 : Nat) (center second : Nut)
    (ci : Int) (avail stack : List Nut), avail.length ≤ f1 → avail.length ≤ f2 →
    tracePathFuel f1 center second ci avail stack
      = tracePathFuel f2 center second ci avail stack := by
  intro f1
  induction f1 with
  | zero =>
    intro f2 c s ci avail stack h1 h2
    have : avail = [] := List.length_eq_zero.1 (Nat.le_zero.1 h1)
    subst this
    cases f2 <;> rfl
  | succ g ih =>
    intro f2 c s ci avail stack h1 h2
    cases avail with
    | nil => cases f2 <;> rfl
    | cons a rest =>
      cases f2 with
      | zero => simp at h2
      | succ g2 =>
        cases hv : getItemE c ci with
        | error e => rw [tpfErrCenter g c s ci a rest stack e hv,
            tpfErrCenter g2 c s ci a rest stack e hv]
        | ok v =>
          cases hsi : indexOfE s v with
          | error e => rw [tpfErrIndex g c s ci a rest stack v e hv hsi,
              tpfErrIndex g2 c s ci a rest stack v e hv hsi]
          | ok si =>
            cases he : get_open_edges c ci s si with
            | error e => rw [tpfErrEdges g c s ci a rest stack v si e hv hsi he,
                tpfErrEdges g2 c s ci a rest stack v si e hv hsi he]
            | ok edges =>
              rcases edges with ⟨le, re⟩
              cases hf : (a :: rest).find? (fun m => hasEdge m re) with
              | none => rw [tpfNone g c s ci a rest stack v si le re hv hsi he hf,
                  tpfNone g2 c s ci a rest stack v si le re hv hsi he hf]
              | some rn =>
                rw [tpfFound g c s ci a rest stack v si le re rn hv hsi he hf,
                  tpfFound g2 c s ci a rest stack v si le re rn hv hsi he hf]
                have hmem : rn ∈ a :: rest := List.mem_of_find?_eq_some hf
                have hlt : (sortedSetMinus (a :: rest) [rn]).length < (a :: rest).length :=
                  sortedSetMinus_length_lt _ _ hmem
                simp only [List.length_cons] at hlt h1 h2
                exact ih g2 c rn (ci + 1) _ _ (by omega) (by omega)

/-- Unfolding equation of the search on the empty pool. -/
theorem trace_path_nil (center second : Nut) (ci : Int) (stack : List Nut) :
    trace_path center second ci [] stack = .ok (true, stack) := rfl

/-- Unfolding equation of the search when the scan finds a piece carrying
the right open edge: the search recurses on the shrunk, re-sorted pool
with the piece appended to the path. -/
theorem trace_path_found (center second : Nut) (ci : Int)
    (avail stack : List Nut) (v si : Int) (le re : Int × Int) (rn : Nut)
    (hne : avail ≠ [])
    (hv : getItemE center ci = .ok v)
    (hsi : indexOfE second v = .ok si)
    (he : get_open_edges center ci second si = .ok (le, re))
    (hf : avail.find? (fun m => hasEdge m re) = some rn) :
    trace_path center second ci avail stack
      = trace_path center rn (ci + 1) (sortedSetMinus avail [rn]) (stack ++ [rn]) := by
  cases avail with
  | nil => exact absurd rfl hne
  | cons a rest =>
    have hmem : rn ∈ a :: rest := List.mem_of_find?_eq_some hf
    have hlt : (sortedSetMinus (a :: rest) [rn]).length < (a :: rest).length :=
      sortedSetMinus_length_lt _ _ hmem
    simp only [List.length_cons] at hlt
    unfold trace_path
    simp only [List.length_cons]
    rw [tpfFound rest.length center second ci a rest stack v si le re rn hv hsi he hf]
    exact tracePathFuel_congr _ _ _ _ _ _ _ (by omega) (le_refl _)

/-- Unfolding equation of the search when no piece carries the right open
edge: the branch fails and reports the path so far. -/
theorem trace_path_failed (center second : Nut) (ci : Int)
    (avail stack : List Nut) (v si : Int) (le re : Int × Int)
    (hne : avail ≠ [])
    (hv : getItemE center ci = .ok v)
    (hsi : indexOfE second v = .ok si)
    (he : get_open_edges center ci second si = .ok (le, re))
    (hf : avail.find? (fun m => hasEdge m re) = none) :
    trace_path center second ci avail stack = .ok (false, stack) := by
  cases avail with
  | nil => exact absurd rfl hne
  | cons a rest =>
    unfold trace_path
    simp only [List.length_cons]
    exact tpfNone rest.length center second ci a rest stack v si le re hv hsi he hf

/-- On a pool sorted by strictly increasing names, the linear scan finds
exactly the matching piece of least name. -/
theorem find_of_min_name {p : Nut → Bool} : ∀ {pool : List Nut},
    pool.Pairwise (fun x y => x.name < y.name) → ∀ {nxt : Nut}, nxt ∈ pool →
    p nxt = true → (∀ m ∈ pool, p m = true → nxt.name ≤ m.name) →
    pool.find? p = some nxt := by
  intro pool
  induction pool with
  | nil => intro _ nxt h; simp at h
  | cons y ys ih =>
    intro hpw nxt hmem hp hmin
    rcases List.pairwise_cons.1 hpw with ⟨hy, hpw2⟩
    by_cases hpy : p y
    · rw [List.find?_cons_of_pos _ hpy]
      rcases List.mem_cons.1 hmem with h | h
      · rw [h]
      · exfalso
        have h1 : y.name < nxt.name := hy nxt h
        have h2 : nxt.name ≤ y.name := hmin y (List.mem_cons_self y ys) hpy
        exact absurd (lt_of_lt_of_le h1 h2) (lt_irrefl _)
    · rw [List.find?_cons_of_neg _ hpy]
      rcases List.mem_cons.1 hmem with h | h
      · exact absurd (h ▸ hp) hpy
      · exact ih hpw2 h hp (fun m hm hpm => hmin m (List.mem_cons_of_mem y hm) hpm)

/-- Invariant of the fuel-indexed search: a successful run returns the
incoming path extended by some arrangement of the whole pool, and the
extension forms a right-edge chain starting from the current center index
and second piece. -/
theorem traceFuel_invariant : ∀ (fuel : Nat) (center second : Nut) (ci : Int)
    (pool stack final : List Nut), pool.Nodup →
    tracePathFuel fuel center second ci pool stack = .ok (true, final) →
    final.Perm (stack ++ pool) ∧
    ∃ placed, final = stack ++ placed ∧ chainB center ci second placed = true := by
  intro fuel
  induction fuel with
  | zero =>
    intro c s ci pool stack final hnd h
    cases pool with
    | nil =>
      have hfs : stack = final := by
        have h2 : (Except.ok (true, stack) : Except PyError (Bool × List Nut))
            = .ok (true, final) := h
        simpa using h2
      subst hfs
      exact ⟨by simp, [], by simp, rfl⟩
    | cons a rest =>
      exact absurd h (by simp [tracePathFuel])
  | succ g ih =>
    intro c s ci pool stack final hnd h
    cases pool with
    | nil =>
      have hfs : stack = final := by
        have h2 : (Except.ok (true, stack) : Except PyError (Bool × List Nut))
            = .ok (true, final) := h
        simpa using h2
      subst hfs
      exact ⟨by simp, [], by simp, rfl⟩
    | cons a rest =>
      cases hv : getItemE c ci with
      | error e => rw [tpfErrCenter g c s ci a rest stack e hv] at h; exact absurd h (by simp)
      | ok v =>
        cases hsi : indexOfE s v with
        | error e =>
          rw [tpfErrIndex g c s ci a rest stack v e hv hsi] at h
          exact absurd h (by simp)
        | ok si =>
          cases he : get_open_edges c ci s si with
          | error e =>
            rw [tpfErrEdges g c s ci a rest stack v si e hv hsi he] at h
            exact absurd h (by simp)
          | ok edges =>
            rcases edges with ⟨le, re⟩
            cases hf : (a :: rest).find? (fun m => hasEdge m re) with
            | none =>
              rw [tpfNone g c s ci a rest stack v si le re hv hsi he hf] at h
              simp at h
            | some rn =>
              rw [tpfFound g c s ci a rest stack v si le re rn hv hsi he hf] at h
              have hmem : rn ∈ a :: rest := List.mem_of_find?_eq_some hf
              have hedge : hasEdge rn re = true := by
                have := List.find?_some hf
                simpa using this
              obtain ⟨hperm, placed, hfinal, hchain⟩ :=
                ih c rn (ci + 1) _ (stack ++ [rn]) final (sortedSetMinus_nodup _ _) h
              refine ⟨?_, rn :: placed, ?_, ?_⟩
              · have h1 : (sortedSetMinus (a :: rest) [rn]).Perm ((a :: rest).erase rn) :=
                  sortedSetMinus_perm_erase _ _ hnd
                have h2 : ((a :: rest).erase rn).Perm (sortedSetMinus (a :: rest) [rn]) := h1.symm
                have h3 : final.Perm ((stack ++ [rn]) ++ ((a :: rest).erase rn)) :=
                  hperm.trans (h1.append_left (stack ++ [rn]))
                have h4 : (stack ++ [rn]) ++ ((a :: rest).erase rn)
                    = stack ++ (rn :: (a :: rest).erase rn) := by simp
                rw [h4] at h3
                have h5 : (rn :: (a :: rest).erase rn).Perm (a :: rest) :=
                  (List.perm_cons_erase hmem).symm
                exact h3.trans (h5.append_left stack)
              · rw [hfinal]; simp
              · have hstep : chainStepB c ci s rn = true := by
                  simp only [chainStepB, hv, hsi, he]
                  exact hedge
                simp [chainB, hstep, hchain]

/-- The try_center loop computes exactly the feasible tuples described by
the specification, provided every alignment of the center with another
pool piece at index 0 succeeds (as the mismatch error would otherwise
propagate out of the loop). -/
theorem tryCenterAux_eq (center : Nut) (allNuts : List Nut) : ∀ (rest : List Nut),
    (∀ n ∈ rest, n ≠ center → (get_open_edges center 0 n 0).isOk = true) →
    tryCenterAux center allNuts rest
      = .ok (rest.filterMap (specFeasibleFn center allNuts)) := by
  intro rest
  induction rest with
  | nil => intro _; rfl
  | cons n rest ih =>
    intro h
    have htail : ∀ m ∈ rest, m ≠ center → (get_open_edges center 0 m 0).isOk = true :=
      fun m hm => h m (List.mem_cons_of_mem n hm)
    by_cases hc : n = center
    · simp only [tryCenterAux, if_pos hc]
      rw [ih htail]
      simp only [List.filterMap_cons, specFeasibleFn, if_pos hc]
    · have hok := h n (List.mem_cons_self n rest) hc
      cases he : get_open_edges center 0 n 0 with
      | error e => rw [he] at hok; simp [Except.isOk, Except.toBool] at hok
      | ok edges =>
        rcases edges with ⟨le, re⟩
        simp only [tryCenterAux, if_neg hc, he]
        rw [ih htail]
        simp only [List.filterMap_cons, specFeasibleFn, if_neg hc, he]
        by_cases hemp : (sortedSetMinus allNuts [center, n]).filter
              (fun m => hasEdge m le) = []
            ∨ (sortedSetMinus allNuts [center, n]).filter (fun m => hasEdge m re) = []
        · rw [if_pos hemp]
          rcases hemp with hl | hr
          · simp [hl]
          · simp [hr]
        · rw [if_neg hemp]
          push_neg at hemp
          simp [List.isEmpty_iff, hemp.1, hemp.2]

/-- When both pieces are non-empty, the indices stay at or above one minus
the length, and the pivot values agree, the open-edge computation succeeds
with the modular-lookup formula of the specification. -/
theorem open_edges_ok (nut1 nut2 : Nut) (index1 index2 : Int)
    (h1 : nut1.numbers ≠ []) (h2 : nut2.numbers ≠ [])
    (hb1 : 1 - (nut1.numbers.length : Int) ≤ index1)
    (hb2 : 1 - (nut2.numbers.length : Int) ≤ index2)
    (hpivot : valueAt nut1 index1 = valueAt nut2 index2) :
    get_open_edges nut1 index1 nut2 index2 =
      .ok ((valueAt nut2 (index2 + 1), valueAt nut1 (index1 - 1)),
           (valueAt nut1 (index1 + 1), valueAt nut2 (index2 - 1))) := by
  have g1 : getItemE nut1 index1 = .ok (valueAt nut1 index1) :=
    getItem_ok nut1 index1 h1 (by omega)
  have g2 : getItemE nut2 index2 = .ok (valueAt nut2 index2) :=
    getItem_ok nut2 index2 h2 (by omega)
  have g3 : getItemE nut2 (index2 + 1) = .ok (valueAt nut2 (index2 + 1)) :=
    getItem_ok nut2 _ h2 (by omega)
  have g4 : getItemE nut1 (index1 - 1) = .ok (valueAt nut1 (index1 - 1)) :=
    getItem_ok nut1 _ h1 (by omega)
  have g5 : getItemE nut1 (index1 + 1) = .ok (valueAt nut1 (index1 + 1)) :=
    getItem_ok nut1 _ h1 (by omega)
  have g6 : getItemE nut2 (index2 - 1) = .ok (valueAt nut2 (index2 - 1)) :=
    getItem_ok nut2 _ h2 (by omega)
  simp only [get_open_edges, g1, g2]
  rw [hpivot]
  rw [if_neg (fun hh => hh rfl)]
  simp only [g3, g4, g5, g6]

/-- When the lookups are in range but the pivot values differ, the
computation raises exactly the mismatch error. -/
theorem open_edges_mismatch (nut1 nut2 : Nut) (index1 index2 : Int)
    (h1 : nut1.numbers ≠ []) (h2 : nut2.numbers ≠ [])
    (hb1 : 1 - (nut1.numbers.length : Int) ≤ index1)
    (hb2 : 1 - (nut2.numbers.length : Int) ≤ index2)
    (hpivot : valueAt nut1 index1 ≠ valueAt nut2 index2) :
    get_open_edges nut1 index1 nut2 index2 = .error .mismatchError := by
  have g1 : getItemE nut1 index1 = .ok (valueAt nut1 index1) :=
    getItem_ok nut1 index1 h1 (by omega)
  have g2 : getItemE nut2 index2 = .ok (valueAt nut2 index2) :=
    getItem_ok nut2 index2 h2 (by omega)
  simp only [get_open_edges, g1, g2]
  rw [if_pos hpivot]

/-! ### Claim C3 -/

/-- C3 (amended): for two pieces with non-empty sequences, indices bounded
below by one minus the respective lengths (in particular all non-negative
indices), and equal pivot values, get_open_edges returns exactly the pair
left = (value of piece2 at index2 + 1, value of piece1 at index1 - 1) and
right = (value of piece1 at index1 + 1, value of piece2 at index2 - 1),
all lookups modulo the sequence length; purity holds by construction of
the embedding.  The amendment restricts the claimed arbitrary integer
indices to those the implementation supports (see C3_counterexample). -/
theorem C3_open_edges_formula (nut1 nut2 : Nut) (index1 index2 : Int)
    (h1 : nut1.numbers ≠ []) (h2 : nut2.numbers ≠ [])
    (hb1 : 1 - (nut1.numbers.length : Int) ≤ index1)
    (hb2 : 1 - (nut2.numbers.length : Int) ≤ index2)
    (hpivot : valueAt nut1 index1 = valueAt nut2 index2) :
    get_open_edges nut1 index1 nut2 index2 =
      .ok ((valueAt nut2 (index2 + 1), valueAt nut1 (index1 - 1)),
           (valueAt nut1 (index1 + 1), valueAt nut2 (index2 - 1))) :=
  open_edges_ok nut1 nut2 index1 index2 h1 h2 hb1 hb2 hpivot

/-- Witness for C3, reproducing a doctest of src/solve.py. -/
theorem C3_witness : get_open_edges nutA 1 nutC 3 = .ok ((4, 1), (3, 5)) :=
  Eq.trans
    (C3_open_edges_formula nutA nutC 1 3 (by decide) (by decide) (by decide)
      (by decide) (by decide)) rfl

/-- Counterexample to C3 as frozen: at index1 = -6 on a piece of length 6
the pivot values agree (both are the value at position 0), yet the
computation raises IndexError instead of returning the modular formula,
because the lookup at index1 - 1 = -7 is below the valid Python range. -/
theorem C3_counterexample :
    getItemE nutA (-6) = .ok 1 ∧ getItemE nutA 0 = .ok 1 ∧
    get_open_edges nutA (-6) nutA 0 = .error .indexError :=
  ⟨rfl, rfl, rfl⟩

/-! ### Claim C4 -/

/-- C4 (amended): for two pieces with non-empty sequences and indices
bounded below by one minus the respective lengths, get_open_edges raises
the mismatch error exactly when the pivot values differ, and succeeds
otherwise; outside those bounds an IndexError can occur instead (see
C4_counterexample). -/
theorem C4_mismatch_exactly (nut1 nut2 : Nut) (index1 index2 : Int)
    (h1 : nut1.numbers ≠ []) (h2 : nut2.numbers ≠ [])
    (hb1 : 1 - (nut1.numbers.length : Int) ≤ index1)
    (hb2 : 1 - (nut2.numbers.length : Int) ≤ index2) :
    (valueAt nut1 index1 ≠ valueAt nut2 index2 ↔
      get_open_edges nut1 index1 nut2 index2 = .error .mismatchError) ∧
    (valueAt nut1 index1 = valueAt nut2 index2 ↔
      (get_open_edges nut1 index1 nut2 index2).isOk = true) := by
  by_cases hp : valueAt nut1 index1 = valueAt nut2 index2
  · rw [open_edges_ok nut1 nut2 index1 index2 h1 h2 hb1 hb2 hp]
    constructor
    · constructor
      · intro hne; exact absurd hp hne
      · intro hh; exact absurd hh (by simp)
    · constructor
      · intro _; rfl
      · intro _; exact hp
  · rw [open_edges_mismatch nut1 nut2 index1 index2 h1 h2 hb1 hb2 hp]
    constructor
    · constructor
      · intro _; rfl
      · intro _; exact hp
    · constructor
      · intro hh; exact absurd hh hp
      · intro hh; exact absurd hh (by simp [Except.isOk, Except.toBool])


/-- Witness for C4: pieces a and b hold different values at indices 0 and
1, so the alignment raises the mismatch error. -/
theorem C4_witness : get_open_edges nutA 0 nutB 1 = .error .mismatchError :=
  (C4_mismatch_exactly nutA nutB 0 1 (by decide) (by decide) (by decide)
    (by decide)).1.mp (by decide)

/-- Counterexample to C4 as frozen: at index2 = -6 on piece b the pivot
values agree (both lookups succeed and give 1), so no mismatch error is
due, yet the computation still fails, with IndexError from the lookup at
index2 - 1 = -7; so for arbitrary integer indices the function can fail
in a way other than the mismatch error. -/
theorem C4_counterexample :
    getItemE nutB 0 = .ok 1 ∧ getItemE nutB (-6) = .ok 1 ∧
    get_open_edges nutB 0 nutB (-6) = .error .indexError :=
  ⟨rfl, rfl, rfl⟩

/-! ### Claim C6 -/

/-- C6 (amended): for a non-empty piece, the item lookup realizes the
modular formula sequence[i mod len] with mathematical (non-negative)
modulo for every index of at least -len, and the periodicity equation
value_at(p, i) = value_at(p, i - len) holds for every non-negative i.
Below -len the lookup raises IndexError instead (see C6_counterexample),
which is the only restriction the amendment adds. -/
theorem C6_value_at_modular (nut : Nut) (h : nut.numbers ≠ []) :
    (∀ i : Int, -(nut.numbers.length : Int) ≤ i →
      getItemE nut i = .ok (valueAt nut i)) ∧
    (∀ i : Int, 0 ≤ i →
      getItemE nut i = getItemE nut (i - (nut.numbers.length : Int))) := by
  have hlen : 0 < (nut.numbers.length : Int) := by
    have := List.length_pos.2 h
    omega
  constructor
  · intro i hi
    exact getItem_ok nut i h hi
  · intro i hi
    rw [getItem_ok nut i h (by omega), getItem_ok nut _ h (by omega)]
    have hmod : (i - (nut.numbers.length : Int)) % (nut.numbers.length : Int)
        = i % (nut.numbers.length : Int) := by
      have hh := Int.add_mul_emod_self_left i (nut.numbers.length : Int) (-1)
      have he : i + (nut.numbers.length : Int) * (-1) = i - (nut.numbers.length : Int) := by
        ring
      rw [he] at hh
      exact hh
    unfold valueAt
    rw [hmod]

/-- Witness for C6, on piece a of length 6: index 7 wraps to position 1
and index 3 equals index -3 under the periodicity equation. -/
theorem C6_witness :
    getItemE nutA 7 = .ok (valueAt nutA 7) ∧
    getItemE nutA 3 = getItemE nutA (3 - (nutA.numbers.length : Int)) :=
  ⟨(C6_value_at_modular nutA (by decide)).1 7 (by decide),
   (C6_value_at_modular nutA (by decide)).2 3 (by decide)⟩

/-- Counterexample to C6 as frozen: at index -7 on the length-6 piece a,
the claimed modular semantics demands the value at position (-7) mod 6 =
5, namely 6, and the claimed periodicity demands agreement with index -1,
which holds the value 6; the code instead raises IndexError. -/
theorem C6_counterexample :
    getItemE nutA (-7) = .error .indexError ∧
    valueAt nutA (-7) = 6 ∧
    getItemE nutA (-1) = .ok 6 :=
  ⟨rfl, rfl, rfl⟩

/-! ### Claim C7 -/

/-- C7 (confirmed): whenever the open-edge computation succeeds, swapping
the two pieces together with their indices swaps the left and right open
edges. -/
theorem C7_swap_edges (nut1 nut2 : Nut) (index1 index2 : Int)
    (l r : Int × Int)
    (h : get_open_edges nut1 index1 nut2 index2 = .ok (l, r)) :
    get_open_edges nut2 index2 nut1 index1 = .ok (r, l) := by
  unfold get_open_edges at h ⊢
  revert h
  cases h1 : getItemE nut1 index1 with
  | error e => intro h; simp at h
  | ok v1 =>
    cases h2 : getItemE nut2 index2 with
    | error e => intro h; simp at h
    | ok v2 =>
      by_cases hv : v1 = v2
      · subst hv
        cases h3 : getItemE nut2 (index2 + 1) with
        | error e => intro h; simp at h
        | ok la =>
          cases h4 : getItemE nut1 (index1 - 1) with
          | error e => intro h; simp at h
          | ok lb =>
            cases h5 : getItemE nut1 (index1 + 1) with
            | error e => intro h; simp at h
            | ok ra =>
              cases h6 : getItemE nut2 (index2 - 1) with
              | error e => intro h; simp at h
              | ok rb =>
                intro h
                simp at h
                obtain ⟨e1, e2⟩ := h
                subst e1
                subst e2
                simp
      · intro h
        simp [hv] at h

/-- Witness for C7, from the doctest pair (a, b): swapping the arguments
swaps the two open edges. -/
theorem C7_witness : get_open_edges nutB 0 nutA 0 = .ok ((2, 4), (2, 6)) :=
  C7_swap_edges nutA nutB 0 0 (2, 6) (2, 4) rfl

/-! ### Claim C8 -/

/-- C8 (confirmed): constructing a piece from an empty sequence fails at
construction time, before any search begins (the specification names this
failure InvalidPieceError; concretely the edge-building loop of the
constructor hits an out-of-range lookup), and construction from any
non-empty sequence succeeds, yielding a piece carrying exactly the given
data. -/
theorem C8_construction (numbers : List Int) (name : Char) (oid : Nat) :
    (numbers = [] → nutInit numbers name oid = .error .indexError) ∧
    (numbers ≠ [] → ∃ nut, nutInit numbers name oid = .ok nut ∧
      nut.numbers = numbers ∧ nut.name = name) := by
  cases numbers with
  | nil =>
    exact ⟨fun _ => rfl, fun h => absurd rfl h⟩
  | cons x xs =>
    refine ⟨fun h => absurd h (by simp), fun _ => ⟨Nut.mk (x :: xs) name oid, rfl, rfl, rfl⟩⟩

/-- Witness for C8 at concrete inputs. -/
theorem C8_witness :
    nutInit [] 'z' 7 = .error .indexError ∧
    ∃ nut, nutInit [9, 9] 'z' 8 = .ok nut ∧ nut.numbers = [9, 9] ∧ nut.name = 'z' :=
  ⟨(C8_construction [] 'z' 7).1 rfl, (C8_construction [9, 9] 'z' 8).2 (by simp)⟩

/-! ### Claim C9 -/

/-- C9 (confirmed): pieces are ordered by label through the lt and gt
comparisons, which see two same-label pieces as equivalent, while
equality follows object identity, so two pieces built from identical
data with distinct identities are unequal, and the set difference that
shrinks a pool keeps the twin that was not removed. -/
theorem C9_identity_semantics (n1 n2 : Nut)
    (hnum : n1.numbers = n2.numbers) (hname : n1.name = n2.name)
    (hoid : n1.oid ≠ n2.oid) :
    n1 ≠ n2 ∧ nutLt n1 n2 = false ∧ nutGt n1 n2 = false ∧
    (∀ pool : List Nut, n2 ∈ pool → n2 ∈ sortedSetMinus pool [n1]) := by
  have hne : n1 ≠ n2 := by
    intro h
    exact hoid (congrArg Nut.oid h)
  refine ⟨hne, ?_, ?_, ?_⟩
  · unfold nutLt
    rw [hname]
    exact decide_eq_false (lt_irrefl _)
  · unfold nutGt
    rw [hname]
    exact decide_eq_false (lt_irrefl _)
  · intro pool hmem
    apply mem_sortedSetMinus hmem
    simp only [List.contains_cons, List.contains_nil, Bool.or_false, beq_iff_eq,
      beq_eq_false_iff_ne, ne_eq]
    exact fun h => hne h.symm

/-- Witness for C9 on the twin pieces nutP1 and nutP2. -/
theorem C9_witness :
    nutP1 ≠ nutP2 ∧ nutLt nutP1 nutP2 = false ∧ nutGt nutP1 nutP2 = false ∧
    nutP2 ∈ sortedSetMinus [nutP1, nutP2] [nutP1] := by
  have h := C9_identity_semantics nutP1 nutP2 rfl rfl (by decide)
  exact ⟨h.1, h.2.1, h.2.2.1, h.2.2.2 [nutP1, nutP2] (by decide)⟩

/-! ### Claim C5 -/

/-- C5 (confirmed): whenever every alignment of the center with another
pool piece at index 0 succeeds (otherwise the mismatch error propagates,
as the specification also notes), try_center returns exactly the feasible
tuples (center, n, left_options, right_options) described by the
specification: for each other piece n of the pool, the pieces of the pool
without center and n whose edge sets contain the left and the right open
edge respectively, kept exactly when both lists are non-empty. -/
theorem C5_try_center_feasible (center : Nut) (allNuts : List Nut)
    (h : ∀ n ∈ allNuts, n ≠ center → (get_open_edges center 0 n 0).isOk = true) :
    try_center center allNuts = .ok (specFeasible center allNuts) :=
  tryCenterAux_eq center allNuts allNuts h

/-- Witness for C5: on the canonical dataset with center a the filter
returns exactly the doctest value of src/solve.py. -/
theorem C5_witness :
    try_center nutA allNutsList
      = .ok [(nutA, nutB, [nutD, nutF], [nutC]),
             (nutA, nutE, [nutC], [nutD, nutF]),
             (nutA, nutF, [nutB, nutE], [nutC])] :=
  Eq.trans (C5_try_center_feasible nutA allNutsList (by decide)) rfl

/-! ### Claim C2 -/

/-- C2 (confirmed): one step of trace_path on a pool sorted by strictly
increasing labels, which is how every call site builds the pool.  On an
empty pool the call returns success with the accumulated path.  Otherwise,
once the pivot value of the center at centerIndex, its first index on the
second piece, and the open edges of that alignment are obtained, the scan
picks the label-least pool piece whose edge set contains the right open
edge (the left edge is never consulted): if such a piece exists the call
equals the recursive call with the same center, centerIndex + 1, that
piece as second, the re-sorted pool without it, and the path with it
appended; if none exists the call returns failure with the path so far. -/
theorem C2_trace_step (center second : Nut) (ci : Int) (pool stack : List Nut)
    (hsorted : pool.Pairwise (fun x y => x.name < y.name)) :
    (pool = [] → trace_path center second ci pool stack = .ok (true, stack)) ∧
    (∀ v si le re, pool ≠ [] →
      getItemE center ci = .ok v →
      indexOfE second v = .ok si →
      get_open_edges center ci second si = .ok (le, re) →
      ((∀ m ∈ pool, hasEdge m re = false) →
        trace_path center second ci pool stack = .ok (false, stack)) ∧
      (∀ nxt ∈ pool, hasEdge nxt re = true →
        (∀ m ∈ pool, hasEdge m re = true → nxt.name ≤ m.name) →
        trace_path center second ci pool stack
          = trace_path center nxt (ci + 1) (sortedSetMinus pool [nxt]) (stack ++ [nxt]))) := by
  constructor
  · intro hp
    subst hp
    exact trace_path_nil center second ci stack
  · intro v si le re hne hv hsi he
    constructor
    · intro hnone
      apply trace_path_failed center second ci pool stack v si le re hne hv hsi he
      exact List.find?_eq_none.2 (fun x hx => by simp [hnone x hx])
    · intro nxt hmem hpnxt hmin
      apply trace_path_found center second ci pool stack v si le re nxt hne hv hsi he
      exact find_of_min_name hsorted hmem hpnxt hmin

/-- Witness for C2: with center a, second b and pool consisting of c
alone, the right open edge (2, 4) is found on c and the step recurses
into the empty pool, giving success. -/
theorem C2_witness :
    trace_path nutA nutB 0 [nutC] [nutA, nutB] = .ok (true, [nutA, nutB, nutC]) :=
  Eq.trans
    (((C2_trace_step nutA nutB 0 [nutC] [nutA, nutB] (by simp)).2
        1 0 (2, 6) (2, 4) (by simp) rfl rfl rfl).2 nutC (by simp) rfl
      (fun m hm _ => by
        rcases List.mem_singleton.1 hm with h
        rw [h]))
    rfl

/-! ### Claim C1 -/

/-- C1 (amended): a successful full search returns a path that is the
starting path extended by the whole pool in some order, hence a
permutation of the entire dataset when started from a starting pair drawn
from a duplicate-free dataset, and every piece placed after the starting
pair closes, at the traced indices, the right open edge left by the step
that placed it, which is the edge-closure rule the search maintains.  The
closure of the wraparound pair and of the initial pair is not checked by
the code and can fail (see C1_counterexample), which is what the
amendment drops from the frozen claim. -/
theorem C1_success_perm_chain (center second : Nut) (ci : Int)
    (pool stack final : List Nut) (hnd : pool.Nodup)
    (h : trace_path center second ci pool stack = .ok (true, final)) :
    final.Perm (stack ++ pool) ∧
    ∃ placed, final = stack ++ placed ∧ chainB center ci second placed = true :=
  traceFuel_invariant pool.length center second ci pool stack final hnd h

/-- Witness for C1: the canonical dataset run from the starting pair
(d, f) succeeds with the documented solution path, which is a permutation
of the seven pieces and carries the right-edge chain. -/
theorem C1_witness :
    ([nutD, nutF, nutA, nutC, nutG, nutB, nutE] : List Nut).Perm
        ([nutD, nutF] ++ sortedSetMinus allNutsList [nutD, nutF]) ∧
    ∃ placed, [nutD, nutF, nutA, nutC, nutG, nutB, nutE] = [nutD, nutF] ++ placed ∧
      chainB nutD 0 nutF placed = true :=
  C1_success_perm_chain nutD nutF 0 (sortedSetMinus allNutsList [nutD, nutF])
    [nutD, nutF] [nutD, nutF, nutA, nutC, nutG, nutB, nutE] (by decide) rfl

/-- Counterexample to C1 as frozen: on the two-piece dataset consisting of
nutX and nutY, which share no rim value, the full search started from the
ordered pair (nutX, nutY) has an empty remaining pool, so it immediately
returns success with path [nutX, nutY]; yet the adjacent pair (nutX,
nutY) admits no rim alignment at the traced indices at all: the pivot
value of the center at index 0 is 1 and does not occur on nutY, so the
edge-closure rule fails for this adjacent pair (and likewise for the
wraparound pair), refuting the claim for arbitrary datasets. -/
theorem C1_counterexample :
    trace_path nutX nutY 0 [] [nutX, nutY] = .ok (true, [nutX, nutY]) ∧
    getItemE nutX 0 = .ok 1 ∧
    indexOfE nutY 1 = .error .valueNotFoundError :=
  ⟨rfl, rfl, rfl⟩
